import Mathlib

/-!
Shallow embedding of `server/storage.ts` (the `MemoryStorage` class, which is
the live store: `export const storage = new MemoryStorage()`).

JavaScript `Map` objects are embedded as association lists `List (String × α)`:
`Map.get` is `mapLookup`, `Map.set` is `mapSet` (replace in place when the key
is present, append otherwise — matching the insertion-order semantics of JS
maps), `Map.delete` is `mapErase`.  `Date.now()` / `new Date()` values and the
`Math.random().toString(36).substr(2, 9)` suffix are external inputs, so each
operation that consumes them takes them as explicit parameters (`now : Nat`,
`suffix : String`).  `array.sort(cmp)` is embedded as `List.insertionSort`,
which is stable, as ECMAScript requires `Array.prototype.sort` to be.
-/

namespace AniverseStorage

/-- `Map.get`: the value stored at key `k`, if any. -/
def mapLookup (k : String) (l : List (String × α)) : Option α :=
  (l.find? (fun p => p.1 == k)).map (·.2)

/-- `Map.set`: replace the value at `k` in place when present, else append. -/
def mapSet (k : String) (v : α) (l : List (String × α)) : List (String × α) :=
  if l.any (fun p => p.1 == k) then
    l.map (fun p => if p.1 == k then (k, v) else p)
  else
    l ++ [(k, v)]

/-- `Map.delete`: remove the entry at key `k`. -/
def mapErase (k : String) (l : List (String × α)) : List (String × α) :=
  l.filter (fun p => !(p.1 == k))

/-- Modelled from the spec: the `User` record shape of `@shared/schema`
(not under `src/`): an externally supplied identifier, profile fields opaque
to the store, and the two timestamps. -/
structure User where
  id : String
  profile : String
  createdAt : Nat
  updatedAt : Nat
deriving DecidableEq, Repr

/-- Modelled from the spec: the `UpsertUser` input shape — the identifier and
the mutable profile fields, without the store-managed timestamps. -/
structure UpsertUser where
  id : String
  profile : String
deriving DecidableEq, Repr

/-- Modelled from the spec: the `ChatSession` record shape of
`@shared/schema`: a store-generated identifier, the owning user identifier,
opaque session metadata, and the two timestamps. -/
structure ChatSession where
  id : String
  userId : String
  title : String
  createdAt : Nat
  updatedAt : Nat
deriving DecidableEq, Repr

/-- Modelled from the spec: the `InsertChatSession` input shape. -/
structure InsertChatSession where
  userId : String
  title : String
deriving DecidableEq, Repr

/-- Modelled from the spec: the `Message` record shape of `@shared/schema`:
a store-generated identifier, the owning session identifier, content and role
fields opaque to the store, and a timestamp. -/
structure Message where
  id : String
  sessionId : String
  role : String
  content : String
  timestamp : Nat
deriving DecidableEq, Repr

/-- Modelled from the spec: the `InsertMessage` input shape. -/
structure InsertMessage where
  sessionId : String
  role : String
  content : String
deriving DecidableEq, Repr

/-- The five private maps of `MemoryStorage`. -/
structure Store where
  users : List (String × User)
  chatSessions : List (String × ChatSession)
  messages : List (String × Message)
  sessionsByUser : List (String × List String)
  messagesBySession : List (String × List String)
deriving DecidableEq, Repr

/-- The freshly constructed `MemoryStorage`: five empty maps. -/
def emptyStore : Store :=
  { users := [], chatSessions := [], messages := [],
    sessionsByUser := [], messagesBySession := [] }

/-- `MemoryStorage.getUser`. -/
def getUser (id : String) (st : Store) : Option User :=
  mapLookup id st.users

/-- `MemoryStorage.upsertUser`: `createdAt` is the stored user's when the id
is already present, else `now`; `updatedAt` is always `now`. -/
def upsertUser (userData : UpsertUser) (now : Nat) (st : Store) : User × Store :=
  let user : User :=
    { id := userData.id
      profile := userData.profile
      createdAt := match mapLookup userData.id st.users with
                   | some old => old.createdAt
                   | none => now
      updatedAt := now }
  (user, { st with users := mapSet userData.id user st.users })

/-- The generated session identifier:
``session_${Date.now()}_${Math.random().toString(36).substr(2, 9)}``. -/
def genSessionId (now : Nat) (suffix : String) : String :=
  "session_" ++ toString now ++ "_" ++ suffix

/-- The generated message identifier:
``msg_${Date.now()}_${Math.random().toString(36).substr(2, 9)}``. -/
def genMessageId (now : Nat) (suffix : String) : String :=
  "msg_" ++ toString now ++ "_" ++ suffix

/-- `MemoryStorage.createChatSession`. -/
def createChatSession (insertSession : InsertChatSession) (now : Nat)
    (suffix : String) (st : Store) : ChatSession × Store :=
  let id := genSessionId now suffix
  let session : ChatSession :=
    { id := id, userId := insertSession.userId, title := insertSession.title
      createdAt := now, updatedAt := now }
  let userSessions := (mapLookup insertSession.userId st.sessionsByUser).getD []
  (session,
   { st with
       chatSessions := mapSet id session st.chatSessions
       sessionsByUser :=
         mapSet insertSession.userId (userSessions ++ [id]) st.sessionsByUser })

/-- `MemoryStorage.getChatSession`. -/
def getChatSession (id : String) (st : Store) : Option ChatSession :=
  mapLookup id st.chatSessions

/-- The list of session ids tracked for a user (`sessionsByUser.get(userId) || []`). -/
def sbuList (userId : String) (st : Store) : List String :=
  (mapLookup userId st.sessionsByUser).getD []

/-- The list of message ids tracked for a session (`messagesBySession.get(sessionId) || []`). -/
def mbsList (sessionId : String) (st : Store) : List String :=
  (mapLookup sessionId st.messagesBySession).getD []

/-- `MemoryStorage.getAllChatSessions`: resolve the user's session ids through
the primary map, drop unresolved ids, sort by `updatedAt` descending
(`(a, b) => b.updatedAt - a.updatedAt` under a stable sort). -/
def getAllChatSessions (userId : String) (st : Store) : List ChatSession :=
  List.insertionSort (fun a b => b.updatedAt ≤ a.updatedAt)
    ((sbuList userId st).filterMap (fun id => mapLookup id st.chatSessions))

/-- `MemoryStorage.createMessage`: store the message, append its id to the
session's index list, and refresh the owning session's `updatedAt` when that
session exists. -/
def createMessage (insertMessage : InsertMessage) (now : Nat)
    (suffix : String) (st : Store) : Message × Store :=
  let id := genMessageId now suffix
  let message : Message :=
    { id := id, sessionId := insertMessage.sessionId
      role := insertMessage.role, content := insertMessage.content
      timestamp := now }
  let sessionMessages := (mapLookup insertMessage.sessionId st.messagesBySession).getD []
  let st1 : Store :=
    { st with
        messages := mapSet id message st.messages
        messagesBySession :=
          mapSet insertMessage.sessionId (sessionMessages ++ [id]) st.messagesBySession }
  let st2 : Store :=
    match mapLookup insertMessage.sessionId st.chatSessions with
    | some session =>
        { st1 with
            chatSessions :=
              mapSet insertMessage.sessionId { session with updatedAt := now }
                st1.chatSessions }
    | none => st1
  (message, st2)

/-- `MemoryStorage.getMessagesBySessionId`: resolve the session's message ids
through the primary map, drop unresolved ids, sort by `timestamp` ascending
(`(a, b) => a.timestamp - b.timestamp` under a stable sort). -/
def getMessagesBySessionId (sessionId : String) (st : Store) : List Message :=
  List.insertionSort (fun a b => a.timestamp ≤ b.timestamp)
    ((mbsList sessionId st).filterMap (fun id => mapLookup id st.messages))

/-- `MemoryStorage.deleteMessage`: remove the message if present, and remove
its single index entry (`indexOf` + `splice(index, 1)` removes the first
occurrence, and only when one was found). -/
def deleteMessage (id : String) (st : Store) : Store :=
  match mapLookup id st.messages with
  | none => st
  | some message =>
      let st1 : Store := { st with messages := mapErase id st.messages }
      let sessionMessages := (mapLookup message.sessionId st1.messagesBySession).getD []
      if id ∈ sessionMessages then
        { st1 with
            messagesBySession :=
              mapSet message.sessionId (sessionMessages.erase id) st1.messagesBySession }
      else st1

/-- `MemoryStorage.deleteChatSession`: when the session exists, delete every
message listed in its index entry, drop the index entry, drop the session,
and remove its id from the owning user's index list; no-op otherwise. -/
def deleteChatSession (id : String) (st : Store) : Store :=
  match mapLookup id st.chatSessions with
  | none => st
  | some session =>
      let messageIds := (mapLookup id st.messagesBySession).getD []
      let st1 : Store :=
        { st with
            messages := messageIds.foldl (fun m msgId => mapErase msgId m) st.messages
            messagesBySession := mapErase id st.messagesBySession
            chatSessions := mapErase id st.chatSessions }
      let userSessions := (mapLookup session.userId st1.sessionsByUser).getD []
      if id ∈ userSessions then
        { st1 with
            sessionsByUser :=
              mapSet session.userId (userSessions.erase id) st1.sessionsByUser }
      else st1

/-- One call of the `IStorage` interface, with the external time and
randomness each call consumes made explicit.  The four read operations do not
mutate the store (they build fresh arrays), and are included so that traces
range over the whole interface. -/
inductive Op where
  | getUser (id : String)
  | upsertUser (u : UpsertUser) (now : Nat)
  | createChatSession (s : InsertChatSession) (now : Nat) (suffix : String)
  | getChatSession (id : String)
  | getAllChatSessions (userId : String)
  | createMessage (m : InsertMessage) (now : Nat) (suffix : String)
  | getMessagesBySessionId (sessionId : String)
  | deleteMessage (id : String)
  | deleteChatSession (id : String)
deriving DecidableEq, Repr

/-- The state transition of one interface call. -/
def step (st : Store) : Op → Store
  | .getUser _ => st
  | .upsertUser u now => (upsertUser u now st).2
  | .createChatSession s now suffix => (createChatSession s now suffix st).2
  | .getChatSession _ => st
  | .getAllChatSessions _ => st
  | .createMessage m now suffix => (createMessage m now suffix st).2
  | .getMessagesBySessionId _ => st
  | .deleteMessage id => deleteMessage id st
  | .deleteChatSession id => deleteChatSession id st

/-- Run a sequence of interface calls. -/
def run (st : Store) (ops : List Op) : Store :=
  ops.foldl step st

/-- The session identifiers a trace generates, in order of generation. -/
def genSessionIds : List Op → List String
  | [] => []
  | .createChatSession _ now suffix :: ops => genSessionId now suffix :: genSessionIds ops
  | _ :: ops => genSessionIds ops

/-- The message identifiers a trace generates, in order of generation. -/
def genMessageIds : List Op → List String
  | [] => []
  | .createMessage _ now suffix :: ops => genMessageId now suffix :: genMessageIds ops
  | _ :: ops => genMessageIds ops

/-- The sessions stored in the primary map that are owned by `userId`. -/
def ownedSessions (userId : String) (st : Store) : List ChatSession :=
  (st.chatSessions.filter (fun p => p.2.userId == userId)).map (·.2)

/-- The messages stored in the primary map that are owned by `sessionId`. -/
def ownedMessages (sessionId : String) (st : Store) : List Message :=
  (st.messages.filter (fun p => p.2.sessionId == sessionId)).map (·.2)

/-- The user's sessions resolved from the secondary index in insertion
order — the list `getAllChatSessions` sorts. -/
def resolvedSessions (userId : String) (st : Store) : List ChatSession :=
  (sbuList userId st).filterMap (fun id => mapLookup id st.chatSessions)

/-- The session's messages resolved from the secondary index in insertion
order — the list `getMessagesBySessionId` sorts. -/
def resolvedMessages (sessionId : String) (st : Store) : List Message :=
  (mbsList sessionId st).filterMap (fun id => mapLookup id st.messages)

/-! ### Association-list map lemmas -/

/-- Keys of an association list are pairwise distinct; every JS `Map`
satisfies this, and `mapSet` / `mapErase` preserve it. -/
def KeysNodup (l : List (String × α)) : Prop :=
  (l.map (·.1)).Nodup

/-- The mutual-consistency invariant of the Volatile Store's maps: every
stored session is indexed (under its own key) in its owning user's entry of
`sessionsByUser`, and every stored message in its owning session's entry of
`messagesBySession`. -/
def PrimaryIndexInv (st : Store) : Prop :=
  (∀ k s, mapLookup k st.chatSessions = some s →
    s.id = k ∧ k ∈ sbuList s.userId st) ∧
  (∀ k m, mapLookup k st.messages = some m →
    m.id = k ∧ k ∈ mbsList m.sessionId st)

/-- Both primary record maps relevant to listing have pairwise-distinct
keys, as every JS `Map` does. -/
def StoreKeysNodup (st : Store) : Prop :=
  KeysNodup st.chatSessions ∧ KeysNodup st.messages

/-- The trace-conditioned invariant behind session listing: every id in any
user's `sessionsByUser` entry is (in order) among the generated ids `used`,
resolving such an id yields a session owned by that user, and each entry is
duplicate-free. -/
def SessionTraceInv (used : List String) (st : Store) : Prop :=
  (∀ u, (sbuList u st).Sublist used) ∧
  (∀ u k s, k ∈ sbuList u st → mapLookup k st.chatSessions = some s → s.userId = u) ∧
  (∀ u, (sbuList u st).Nodup)

/-- The trace-conditioned invariant behind message listing: every id in any
session's `messagesBySession` entry is (in order) among the generated message
ids `used`, resolving such an id yields a message owned by that session, and
each entry is duplicate-free. -/
def MessageTraceInv (used : List String) (st : Store) : Prop :=
  (∀ sid, (mbsList sid st).Sublist used) ∧
  (∀ sid k m, k ∈ mbsList sid st → mapLookup k st.messages = some m →
    m.sessionId = sid) ∧
  (∀ sid, (mbsList sid st).Nodup)

theorem mapLookup_nil (k : String) : mapLookup k ([] : List (String × α)) = none := rfl

theorem mapLookup_cons (k a : String) (b : α) (l : List (String × α)) :
    mapLookup k ((a, b) :: l) = if a = k then some b else mapLookup k l := by
  simp only [mapLookup, List.find?]
  by_cases h : a = k
  · simp [h]
  · simp [h, beq_eq_false_iff_ne.2 h]

theorem mapLookup_eq_none_of_not_any {k : String} {l : List (String × α)}
    (h : ¬ (l.any (fun p => p.1 == k) = true)) : mapLookup k l = none := by
  unfold mapLookup
  rw [List.find?_eq_none.2]
  · rfl
  · intro p hp
    simp only [List.any_eq_true, not_exists, not_and] at h
    simpa using h p hp

theorem mapLookup_replace_self (k : String) (v : α) (l : List (String × α))
    (hany : l.any (fun p => p.1 == k) = true) :
    mapLookup k (l.map (fun p => if p.1 == k then (k, v) else p)) = some v := by
  induction l with
  | nil => simp at hany
  | cons p l ih =>
      obtain ⟨a, b⟩ := p
      by_cases hak : a = k
      · simp [hak, mapLookup_cons]
      · have hbeq : (a == k) = false := beq_eq_false_iff_ne.2 hak
        have hany' : l.any (fun p => p.1 == k) = true := by
          simpa [hbeq] using hany
        simpa [hbeq, mapLookup_cons, hak] using ih hany'

theorem mapLookup_replace_ne {k k' : String} (h : k' ≠ k) (v : α) (l : List (String × α)) :
    mapLookup k' (l.map (fun p => if p.1 == k then (k, v) else p)) = mapLookup k' l := by
  induction l with
  | nil => rfl
  | cons p l ih =>
      obtain ⟨a, b⟩ := p
      simp only [List.map_cons]
      by_cases hak : a = k
      · have hb : (a == k) = true := beq_iff_eq.2 hak
        rw [if_pos hb, mapLookup_cons, mapLookup_cons, hak,
          if_neg (fun hkk : k = k' => h hkk.symm),
          if_neg (fun hkk : k = k' => h hkk.symm)]
        exact ih
      · have hb : ¬ ((a == k) = true) := by simp [hak]
        rw [if_neg hb, mapLookup_cons, mapLookup_cons]
        by_cases hak' : a = k'
        · rw [if_pos hak', if_pos hak']
        · rw [if_neg hak', if_neg hak']
          exact ih

theorem mapLookup_append_single (k k' : String) (v : α) (l : List (String × α)) :
    mapLookup k' (l ++ [(k, v)]) =
      match mapLookup k' l with
      | some w => some w
      | none => if k = k' then some v else none := by
  induction l with
  | nil => simp [mapLookup_cons, mapLookup]
  | cons p l ih =>
      obtain ⟨a, b⟩ := p
      by_cases hak' : a = k'
      · simp [mapLookup_cons, hak']
      · rw [List.cons_append, mapLookup_cons, if_neg hak', mapLookup_cons, if_neg hak']
        exact ih

theorem mapLookup_set_self (k : String) (v : α) (l : List (String × α)) :
    mapLookup k (mapSet k v l) = some v := by
  unfold mapSet
  by_cases hany : l.any (fun p => p.1 == k) = true
  · rw [if_pos hany]
    exact mapLookup_replace_self k v l hany
  · rw [if_neg hany, mapLookup_append_single, mapLookup_eq_none_of_not_any hany]
    simp

theorem mapLookup_set_ne {k k' : String} (h : k' ≠ k) (v : α) (l : List (String × α)) :
    mapLookup k' (mapSet k v l) = mapLookup k' l := by
  unfold mapSet
  by_cases hany : l.any (fun p => p.1 == k) = true
  · rw [if_pos hany]
    exact mapLookup_replace_ne h v l
  · rw [if_neg hany, mapLookup_append_single]
    cases hl : mapLookup k' l with
    | some w => rfl
    | none => exact if_neg (fun hkk : k = k' => h hkk.symm)

theorem mapLookup_erase_self (k : String) (l : List (String × α)) :
    mapLookup k (mapErase k l) = none := by
  unfold mapErase mapLookup
  rw [List.find?_eq_none.2]
  · rfl
  · intro p hp
    have := (List.mem_filter.1 hp).2
    simpa using this

theorem mapErase_cons_self (k : String) (b : α) (l : List (String × α)) :
    mapErase k ((k, b) :: l) = mapErase k l := by
  simp [mapErase]

theorem mapErase_cons_ne {a k : String} (h : a ≠ k) (b : α) (l : List (String × α)) :
    mapErase k ((a, b) :: l) = (a, b) :: mapErase k l := by
  simp [mapErase, h]

theorem mapLookup_erase_ne {k k' : String} (h : k' ≠ k) (l : List (String × α)) :
    mapLookup k' (mapErase k l) = mapLookup k' l := by
  induction l with
  | nil => rfl
  | cons p l ih =>
      obtain ⟨a, b⟩ := p
      by_cases hak : a = k
      · rw [hak, mapErase_cons_self, ih, mapLookup_cons,
          if_neg (fun hkk : k = k' => h hkk.symm)]
      · rw [mapErase_cons_ne hak, mapLookup_cons, mapLookup_cons]
        by_cases hak' : a = k'
        · rw [if_pos hak', if_pos hak']
        · rw [if_neg hak', if_neg hak']
          exact ih

theorem mem_of_mapLookup {k : String} {v : α} {l : List (String × α)}
    (h : mapLookup k l = some v) : (k, v) ∈ l := by
  induction l with
  | nil => simp [mapLookup] at h
  | cons p l ih =>
      obtain ⟨a, b⟩ := p
      rw [mapLookup_cons] at h
      by_cases hak : a = k
      · rw [if_pos hak] at h
        cases h
        rw [hak]
        exact List.mem_cons_self _ _
      · rw [if_neg hak] at h
        exact List.mem_cons_of_mem _ (ih h)

theorem mapLookup_of_mem {k : String} {v : α} {l : List (String × α)}
    (hn : KeysNodup l) (h : (k, v) ∈ l) : mapLookup k l = some v := by
  induction l with
  | nil => simp at h
  | cons p l ih =>
      obtain ⟨a, b⟩ := p
      simp only [KeysNodup, List.map_cons, List.nodup_cons] at hn
      rcases List.mem_cons.1 h with heq | hmem
      · obtain ⟨rfl, rfl⟩ := Prod.mk.injEq .. ▸ heq
        simp [mapLookup_cons]
      · have hak : a ≠ k := by
          rintro rfl
          exact hn.1 (List.mem_map.2 ⟨(a, v), hmem, rfl⟩)
        rw [mapLookup_cons, if_neg hak]
        exact ih hn.2 hmem

theorem keysNodup_nil : KeysNodup ([] : List (String × α)) := by
  simp [KeysNodup]

theorem keysNodup_set (k : String) (v : α) {l : List (String × α)}
    (hn : KeysNodup l) : KeysNodup (mapSet k v l) := by
  unfold mapSet
  by_cases hany : l.any (fun p => p.1 == k)
  · rw [if_pos hany]
    unfold KeysNodup at *
    have heq : (l.map (fun p => if p.1 == k then (k, v) else p)).map (·.1) = l.map (·.1) := by
      rw [List.map_map]
      apply List.map_congr_left
      intro p _
      by_cases hpk : p.1 = k
      · simp [hpk]
      · simp [hpk]
    rw [heq]
    exact hn
  · rw [if_neg hany]
    unfold KeysNodup at *
    rw [List.map_append]
    simp only [List.map_cons, List.map_nil]
    rw [List.nodup_append]
    refine ⟨hn, List.nodup_singleton _, ?_⟩
    intro a ha
    simp only [List.mem_singleton]
    rintro rfl
    rcases List.mem_map.1 ha with ⟨p, hp, hpa⟩
    simp only [List.any_eq_true, not_exists, not_and] at hany
    exact hany p hp (by simp [hpa])

theorem keysNodup_erase (k : String) {l : List (String × α)}
    (hn : KeysNodup l) : KeysNodup (mapErase k l) := by
  unfold KeysNodup mapErase at *
  exact List.Nodup.sublist (List.Sublist.map _ (List.filter_sublist l)) hn

theorem mapLookup_foldl_erase (ids : List String) (l : List (String × α)) (k : String) :
    mapLookup k (ids.foldl (fun m i => mapErase i m) l) =
      if k ∈ ids then none else mapLookup k l := by
  induction ids generalizing l with
  | nil => simp
  | cons i ids ih =>
      simp only [List.foldl_cons]
      rw [ih]
      by_cases hk : k ∈ ids
      · simp [hk]
      · by_cases hki : k = i
        · simp [hk, hki, mapLookup_erase_self]
        · simp [hk, hki, mapLookup_erase_ne hki]

/-! ### The claims -/

/-- C8: deleting an identifier that is not present — as a message for
`deleteMessage`, as a session for `deleteChatSession` — succeeds and leaves
the whole store state exactly unchanged. -/
theorem C8_delete_absent_noop (id : String) (st : Store) :
    (mapLookup id st.messages = none → deleteMessage id st = st) ∧
    (mapLookup id st.chatSessions = none → deleteChatSession id st = st) := by
  constructor
  · intro h
    simp [deleteMessage, h]
  · intro h
    simp [deleteChatSession, h]

theorem C8_witness :
    deleteMessage "x" emptyStore = emptyStore ∧
    deleteChatSession "x" emptyStore = emptyStore :=
  ⟨(C8_delete_absent_noop "x" emptyStore).1 rfl,
   (C8_delete_absent_noop "x" emptyStore).2 rfl⟩

/-- C9: `createMessage` into a session id that does not exist does not fail:
the session map is left unchanged and the message is stored and returned by
`getMessagesBySessionId`. -/
theorem C9_createMessage_without_session (m : InsertMessage) (now : Nat)
    (suffix : String) (st : Store)
    (h : mapLookup m.sessionId st.chatSessions = none) :
    (createMessage m now suffix st).2.chatSessions = st.chatSessions ∧
    (createMessage m now suffix st).1 ∈
      getMessagesBySessionId m.sessionId (createMessage m now suffix st).2 := by
  constructor
  · simp [createMessage, h]
  · rw [getMessagesBySessionId, List.mem_insertionSort]
    apply List.mem_filterMap.2
    refine ⟨genMessageId now suffix, ?_, ?_⟩
    · simp [createMessage, h, mbsList, mapLookup_set_self]
    · simp [createMessage, h, mapLookup_set_self]

theorem C9_witness :
    (createMessage ⟨"nosuch", "user", "hi"⟩ 3 "r" emptyStore).2.chatSessions = [] ∧
    (createMessage ⟨"nosuch", "user", "hi"⟩ 3 "r" emptyStore).1 ∈
      getMessagesBySessionId "nosuch" (createMessage ⟨"nosuch", "user", "hi"⟩ 3 "r" emptyStore).2 :=
  (C9_createMessage_without_session ⟨"nosuch", "user", "hi"⟩ 3 "r" emptyStore rfl)

/-- C2: `upsertUser` stamps `updatedAt` with the current time, preserves
`createdAt` from the first insertion of the identifier (setting it to the
current time only when the identifier is unseen), and repeating an identical
upsert returns the same record up to the advancing `updatedAt`. -/
theorem C2_upsertUser (u : UpsertUser) (t1 t2 : Nat) (st : Store) :
    (upsertUser u t1 st).1.updatedAt = t1 ∧
    (mapLookup u.id st.users = none → (upsertUser u t1 st).1.createdAt = t1) ∧
    (∀ old, mapLookup u.id st.users = some old →
      (upsertUser u t1 st).1.createdAt = old.createdAt) ∧
    (upsertUser u t2 (upsertUser u t1 st).2).1 =
      { (upsertUser u t1 st).1 with updatedAt := t2 } := by
  refine ⟨rfl, ?_, ?_, ?_⟩
  · intro h
    simp [upsertUser, h]
  · intro old h
    simp [upsertUser, h]
  · simp [upsertUser, mapLookup_set_self]

theorem C2_witness :
    (upsertUser ⟨"u1", "p"⟩ 5 emptyStore).1.createdAt = 5 ∧
    (upsertUser ⟨"u1", "p"⟩ 9 (upsertUser ⟨"u1", "p"⟩ 5 emptyStore).2).1 =
      { (upsertUser ⟨"u1", "p"⟩ 5 emptyStore).1 with updatedAt := 9 } :=
  ⟨(C2_upsertUser ⟨"u1", "p"⟩ 5 9 emptyStore).2.1 rfl,
   (C2_upsertUser ⟨"u1", "p"⟩ 5 9 emptyStore).2.2.2⟩

/-- C10: deleting a present message touches only that message's entry in the
primary map and its single entry in the owning session's index list; users,
sessions, the other messages and the other index entries are unchanged. -/
theorem C10_deleteMessage_frame (id : String) (st : Store) (m : Message)
    (h : mapLookup id st.messages = some m) :
    (deleteMessage id st).users = st.users ∧
    (deleteMessage id st).chatSessions = st.chatSessions ∧
    (deleteMessage id st).sessionsByUser = st.sessionsByUser ∧
    mapLookup id (deleteMessage id st).messages = none ∧
    (∀ k, k ≠ id → mapLookup k (deleteMessage id st).messages = mapLookup k st.messages) ∧
    (∀ sid, sid ≠ m.sessionId →
      mapLookup sid (deleteMessage id st).messagesBySession =
        mapLookup sid st.messagesBySession) ∧
    mbsList m.sessionId (deleteMessage id st) = (mbsList m.sessionId st).erase id := by
  unfold deleteMessage
  rw [h]
  dsimp only
  by_cases hmem : id ∈ (mapLookup m.sessionId st.messagesBySession).getD []
  · rw [if_pos hmem]
    refine ⟨rfl, rfl, rfl, ?_, ?_, ?_, ?_⟩
    · exact mapLookup_erase_self id st.messages
    · intro k hk
      exact mapLookup_erase_ne hk st.messages
    · intro sid hsid
      exact mapLookup_set_ne hsid _ _
    · simp only [mbsList, mapLookup_set_self, Option.getD_some]
  · rw [if_neg hmem]
    refine ⟨rfl, rfl, rfl, ?_, ?_, ?_, ?_⟩
    · exact mapLookup_erase_self id st.messages
    · intro k hk
      exact mapLookup_erase_ne hk st.messages
    · intro sid _
      rfl
    · rw [List.erase_of_not_mem (by simpa [mbsList] using hmem)]
      rfl

theorem C10_witness :
    (deleteMessage "msg_0_a" (createMessage ⟨"s1", "user", "hi"⟩ 0 "a" emptyStore).2).messages = [] ∧
    mbsList "s1" (deleteMessage "msg_0_a" (createMessage ⟨"s1", "user", "hi"⟩ 0 "a" emptyStore).2) =
      (mbsList "s1" (createMessage ⟨"s1", "user", "hi"⟩ 0 "a" emptyStore).2).erase "msg_0_a" :=
  ⟨by decide,
   (C10_deleteMessage_frame "msg_0_a" (createMessage ⟨"s1", "user", "hi"⟩ 0 "a" emptyStore).2
      ⟨"msg_0_a", "s1", "user", "hi", 0⟩ (by decide)).2.2.2.2.2.2⟩

theorem createMessage_touches_session {m : InsertMessage} {st : Store} {S : ChatSession}
    (t : Nat) (suffix : String) (h : mapLookup m.sessionId st.chatSessions = some S) :
    (createMessage m t suffix st).1.timestamp = t ∧
    getChatSession m.sessionId (createMessage m t suffix st).2 =
      some { S with updatedAt := t } := by
  refine ⟨rfl, ?_⟩
  unfold createMessage getChatSession
  rw [h]
  dsimp only
  exact mapLookup_set_self _ _ _

/-- C3: creating a message in an existing session stamps the message with the
current time and refreshes the owning session's `updatedAt` to that same
time; in particular after creating `m1` then `m2`, the session's `updatedAt`
equals `m2.timestamp`. -/
theorem C3_createMessage_refreshes_updatedAt (m : InsertMessage) (t : Nat)
    (suffix : String) (st : Store) (S : ChatSession)
    (h : getChatSession m.sessionId st = some S) :
    (createMessage m t suffix st).1.timestamp = t ∧
    getChatSession m.sessionId (createMessage m t suffix st).2 =
      some { S with updatedAt := t } ∧
    (∀ m2 t2 suf2, m2.sessionId = m.sessionId →
      (getChatSession m.sessionId
          (createMessage m2 t2 suf2 (createMessage m t suffix st).2).2).map
          (fun s => s.updatedAt) =
        some (createMessage m2 t2 suf2 (createMessage m t suffix st).2).1.timestamp) := by
  have h1 := createMessage_touches_session t suffix (h : mapLookup m.sessionId st.chatSessions = some S)
  refine ⟨h1.1, h1.2, ?_⟩
  intro m2 t2 suf2 he
  have h2 : mapLookup m2.sessionId (createMessage m t suffix st).2.chatSessions =
      some { S with updatedAt := t } := by
    rw [he]
    exact h1.2
  have h3 := createMessage_touches_session t2 suf2 h2
  rw [he] at h3
  rw [h3.2, h3.1]
  rfl

theorem C3_witness :
    (getChatSession "session_0_a"
        (createMessage ⟨"session_0_a", "user", "m2"⟩ 7 "y"
          (createMessage ⟨"session_0_a", "user", "m1"⟩ 3 "x"
            (createChatSession ⟨"u1", "t"⟩ 0 "a" emptyStore).2).2).2).map
        (fun s => s.updatedAt) =
      some (createMessage ⟨"session_0_a", "user", "m2"⟩ 7 "y"
          (createMessage ⟨"session_0_a", "user", "m1"⟩ 3 "x"
            (createChatSession ⟨"u1", "t"⟩ 0 "a" emptyStore).2).2).1.timestamp :=
  (C3_createMessage_refreshes_updatedAt ⟨"session_0_a", "user", "m1"⟩ 3 "x"
      (createChatSession ⟨"u1", "t"⟩ 0 "a" emptyStore).2
      ⟨"session_0_a", "u1", "t", 0, 0⟩ (by decide)).2.2
    ⟨"session_0_a", "user", "m2"⟩ 7 "y" rfl

/-- C1 fails as stated: a message can be created under a session id that does
not exist (the write path does not validate the foreign key), and
`deleteChatSession` on that id is then a no-op, so `getMessagesBySessionId`
still returns the orphaned message afterwards. -/
theorem C1_counterexample :
    getMessagesBySessionId "s1"
        (deleteChatSession "s1"
          (createMessage ⟨"s1", "user", "hi"⟩ 0 "a" emptyStore).2) ≠ [] := by
  decide

/-- C1 (amended): when the session is present, `deleteChatSession(id)`
removes the session and every message indexed under it: afterwards
`getChatSession(id)` is empty and `getMessagesBySessionId(id)` is the empty
sequence. -/
theorem C1_deleteChatSession_cascades (id : String) (st : Store)
    (h : (getChatSession id st).isSome = true) :
    getChatSession id (deleteChatSession id st) = none ∧
    getMessagesBySessionId id (deleteChatSession id st) = [] := by
  obtain ⟨S, hS⟩ := Option.isSome_iff_exists.1 h
  rw [getChatSession] at hS
  unfold deleteChatSession
  rw [hS]
  dsimp only
  by_cases hmem : id ∈ (mapLookup S.userId st.sessionsByUser).getD []
  · rw [if_pos hmem]
    constructor
    · exact mapLookup_erase_self id _
    · simp [getMessagesBySessionId, mbsList, mapLookup_erase_self]
  · rw [if_neg hmem]
    constructor
    · exact mapLookup_erase_self id _
    · simp [getMessagesBySessionId, mbsList, mapLookup_erase_self]

theorem C1_witness :
    ((getChatSession "session_0_a" (createChatSession ⟨"u1", "t"⟩ 0 "a" emptyStore).2).isSome = true) ∧
    getChatSession "session_0_a"
        (deleteChatSession "session_0_a" (createChatSession ⟨"u1", "t"⟩ 0 "a" emptyStore).2) = none :=
  ⟨by decide,
   (C1_deleteChatSession_cascades "session_0_a"
      (createChatSession ⟨"u1", "t"⟩ 0 "a" emptyStore).2 (by decide)).1⟩

/-- C6 fails as stated: identifier generation combines a type tag, the
current time, and a random suffix, so two creations that draw the same time
and the same suffix produce the same identifier — uniqueness is
collision-resistance, not a guarantee. -/
theorem C6_counterexample :
    (createChatSession ⟨"u1", "t"⟩ 0 "a" emptyStore).1.id =
      (createChatSession ⟨"u1", "t"⟩ 0 "a"
        (createChatSession ⟨"u1", "t"⟩ 0 "a" emptyStore).2).1.id := by
  decide

/-- C6 (amended): generated identifiers are collision-resistant rather than
unconditionally unique: a created session's (message's) identifier is the
generator applied to the drawn time and suffix; two identifiers generated at
the same time are equal exactly when their random suffixes are equal; and a
session identifier never collides with a message identifier. -/
theorem C6_generated_ids (t1 t2 : Nat) (s1 s2 : String) :
    (∀ s st, (createChatSession s t1 s1 st).1.id = genSessionId t1 s1) ∧
    (∀ m st, (createMessage m t1 s1 st).1.id = genMessageId t1 s1) ∧
    (genSessionId t1 s1 = genSessionId t1 s2 ↔ s1 = s2) ∧
    (genMessageId t1 s1 = genMessageId t1 s2 ↔ s1 = s2) ∧
    genSessionId t1 s1 ≠ genMessageId t2 s2 := by
  refine ⟨fun s st => rfl, fun m st => rfl, ?_, ?_, ?_⟩
  · constructor
    · intro h
      have hd := congrArg String.data h
      simp only [genSessionId, String.data_append, List.append_cancel_left_eq] at hd
      exact String.ext hd
    · rintro rfl
      rfl
  · constructor
    · intro h
      have hd := congrArg String.data h
      simp only [genMessageId, String.data_append, List.append_cancel_left_eq] at hd
      exact String.ext hd
    · rintro rfl
      rfl
  · intro h
    have hd := congrArg String.data h
    have hs : "session_".data = 's' :: "ession_".data := rfl
    have hm : "msg_".data = 'm' :: "sg_".data := rfl
    simp only [genSessionId, genMessageId, String.data_append, hs, hm,
      List.cons_append, List.cons.injEq] at hd
    exact absurd hd.1 (by decide)

theorem C6_witness :
    genSessionId 0 "a" ≠ genSessionId 0 "b" ∧ genSessionId 3 "a" ≠ genMessageId 3 "a" :=
  ⟨fun h => absurd ((C6_generated_ids 0 0 "a" "b").2.2.1.1 h) (by decide),
   (C6_generated_ids 3 3 "a" "a").2.2.2.2⟩


theorem primaryIndexInv_empty : PrimaryIndexInv emptyStore := by
  constructor
  · intro k s hk
    simp [emptyStore, mapLookup] at hk
  · intro k m hk
    simp [emptyStore, mapLookup] at hk

theorem primaryIndexInv_upsertUser (u : UpsertUser) (now : Nat) {st : Store}
    (h : PrimaryIndexInv st) : PrimaryIndexInv (upsertUser u now st).2 := by
  obtain ⟨hs, hm⟩ := h
  exact ⟨hs, hm⟩

theorem primaryIndexInv_createChatSession (s : InsertChatSession) (now : Nat)
    (suffix : String) {st : Store} (h : PrimaryIndexInv st) :
    PrimaryIndexInv (createChatSession s now suffix st).2 := by
  obtain ⟨hs, hm⟩ := h
  constructor
  · intro k sk hk
    dsimp only [createChatSession] at hk ⊢
    by_cases hkid : k = genSessionId now suffix
    · subst hkid
      rw [mapLookup_set_self] at hk
      cases hk
      refine ⟨rfl, ?_⟩
      dsimp only [sbuList]
      rw [mapLookup_set_self, Option.getD_some]
      exact List.mem_append_right _ (List.mem_singleton.2 rfl)
    · rw [mapLookup_set_ne hkid] at hk
      obtain ⟨hid, hmem⟩ := hs k sk hk
      refine ⟨hid, ?_⟩
      dsimp only [sbuList]
      by_cases huser : sk.userId = s.userId
      · rw [huser, mapLookup_set_self, Option.getD_some]
        exact List.mem_append_left _ (by simpa [sbuList, huser] using hmem)
      · rw [mapLookup_set_ne huser]
        exact hmem
  · intro k mk hk
    dsimp only [createChatSession] at hk ⊢
    exact hm k mk hk

theorem primaryIndexInv_createMessage (m : InsertMessage) (now : Nat)
    (suffix : String) {st : Store} (h : PrimaryIndexInv st) :
    PrimaryIndexInv (createMessage m now suffix st).2 := by
  obtain ⟨hs, hm⟩ := h
  have hmsg : ∀ k mk,
      mapLookup k (mapSet (genMessageId now suffix)
        { id := genMessageId now suffix, sessionId := m.sessionId
          role := m.role, content := m.content, timestamp := now } st.messages) = some mk →
      mk.id = k ∧ k ∈ (mapLookup mk.sessionId
        (mapSet m.sessionId
          (((mapLookup m.sessionId st.messagesBySession).getD []) ++ [genMessageId now suffix])
          st.messagesBySession)).getD [] := by
    intro k mk hk
    by_cases hkid : k = genMessageId now suffix
    · subst hkid
      rw [mapLookup_set_self] at hk
      cases hk
      refine ⟨rfl, ?_⟩
      rw [mapLookup_set_self, Option.getD_some]
      exact List.mem_append_right _ (List.mem_singleton.2 rfl)
    · rw [mapLookup_set_ne hkid] at hk
      obtain ⟨hid, hmem⟩ := hm k mk hk
      refine ⟨hid, ?_⟩
      by_cases hsid : mk.sessionId = m.sessionId
      · rw [hsid, mapLookup_set_self, Option.getD_some]
        exact List.mem_append_left _ (by simpa [mbsList, hsid] using hmem)
      · rw [mapLookup_set_ne hsid]
        exact hmem
  unfold createMessage
  cases hcs : mapLookup m.sessionId st.chatSessions with
  | none =>
      constructor
      · intro k sk hk
        exact hs k sk hk
      · intro k mk hk
        exact hmsg k mk hk
  | some S =>
      constructor
      · intro k sk hk
        dsimp only at hk
        by_cases hkid : k = m.sessionId
        · subst hkid
          rw [mapLookup_set_self] at hk
          cases hk
          obtain ⟨hid, hmem⟩ := hs m.sessionId S hcs
          exact ⟨hid, hmem⟩
        · rw [mapLookup_set_ne hkid] at hk
          exact hs k sk hk
      · intro k mk hk
        exact hmsg k mk hk

theorem primaryIndexInv_deleteMessage (id : String) {st : Store}
    (h : PrimaryIndexInv st) : PrimaryIndexInv (deleteMessage id st) := by
  obtain ⟨hs, hm⟩ := h
  unfold deleteMessage
  cases hmm : mapLookup id st.messages with
  | none => exact ⟨hs, hm⟩
  | some msg =>
      dsimp only
      by_cases hmem : id ∈ (mapLookup msg.sessionId st.messagesBySession).getD []
      · rw [if_pos hmem]
        constructor
        · intro k sk hk
          exact hs k sk hk
        · intro k mk hk
          dsimp only at hk
          have hkid : k ≠ id := by
            rintro rfl
            rw [mapLookup_erase_self] at hk
            cases hk
          rw [mapLookup_erase_ne hkid] at hk
          obtain ⟨hid, hmemk⟩ := hm k mk hk
          refine ⟨hid, ?_⟩
          dsimp only [mbsList]
          by_cases hsid : mk.sessionId = msg.sessionId
          · rw [hsid, mapLookup_set_self, Option.getD_some]
            exact (List.mem_erase_of_ne hkid).2 (by simpa [mbsList, hsid] using hmemk)
          · rw [mapLookup_set_ne hsid]
            exact hmemk
      · rw [if_neg hmem]
        constructor
        · intro k sk hk
          exact hs k sk hk
        · intro k mk hk
          dsimp only at hk
          have hkid : k ≠ id := by
            rintro rfl
            rw [mapLookup_erase_self] at hk
            cases hk
          rw [mapLookup_erase_ne hkid] at hk
          exact hm k mk hk

theorem primaryIndexInv_deleteChatSession (id : String) {st : Store}
    (h : PrimaryIndexInv st) : PrimaryIndexInv (deleteChatSession id st) := by
  obtain ⟨hs, hm⟩ := h
  unfold deleteChatSession
  cases hcs : mapLookup id st.chatSessions with
  | none => exact ⟨hs, hm⟩
  | some S =>
      dsimp only
      have hsessions : ∀ k sk, mapLookup k (mapErase id st.chatSessions) = some sk →
          sk.id = k ∧ k ∈ sbuList sk.userId st ∧ k ≠ id := by
        intro k sk hk
        have hkid : k ≠ id := by
          rintro rfl
          rw [mapLookup_erase_self] at hk
          cases hk
        rw [mapLookup_erase_ne hkid] at hk
        obtain ⟨hid, hmem⟩ := hs k sk hk
        exact ⟨hid, hmem, hkid⟩
      have hmessages : ∀ k mk,
          mapLookup k (((mapLookup id st.messagesBySession).getD []).foldl
            (fun m msgId => mapErase msgId m) st.messages) = some mk →
          mk.id = k ∧ k ∈ (mapLookup mk.sessionId (mapErase id st.messagesBySession)).getD [] := by
        intro k mk hk
        rw [mapLookup_foldl_erase] at hk
        by_cases hkin : k ∈ (mapLookup id st.messagesBySession).getD []
        · rw [if_pos hkin] at hk
          cases hk
        · rw [if_neg hkin] at hk
          obtain ⟨hid, hmem⟩ := hm k mk hk
          refine ⟨hid, ?_⟩
          have hsid : mk.sessionId ≠ id := by
            rintro rfl
            exact hkin (by simpa [mbsList] using hmem)
          rw [mapLookup_erase_ne hsid]
          exact hmem
      by_cases hmem : id ∈ (mapLookup S.userId st.sessionsByUser).getD []
      · rw [if_pos hmem]
        constructor
        · intro k sk hk
          dsimp only at hk
          obtain ⟨hid, hmemk, hkid⟩ := hsessions k sk hk
          refine ⟨hid, ?_⟩
          dsimp only [sbuList]
          by_cases huser : sk.userId = S.userId
          · rw [huser, mapLookup_set_self, Option.getD_some]
            exact (List.mem_erase_of_ne hkid).2 (by simpa [sbuList, huser] using hmemk)
          · rw [mapLookup_set_ne huser]
            exact hmemk
        · intro k mk hk
          exact hmessages k mk hk
      · rw [if_neg hmem]
        constructor
        · intro k sk hk
          obtain ⟨hid, hmemk, _⟩ := hsessions k sk hk
          exact ⟨hid, hmemk⟩
        · intro k mk hk
          exact hmessages k mk hk

theorem primaryIndexInv_step (op : Op) {st : Store} (h : PrimaryIndexInv st) :
    PrimaryIndexInv (step st op) := by
  cases op with
  | getUser _ => exact h
  | upsertUser u now => exact primaryIndexInv_upsertUser u now h
  | createChatSession s now suffix => exact primaryIndexInv_createChatSession s now suffix h
  | getChatSession _ => exact h
  | getAllChatSessions _ => exact h
  | createMessage m now suffix => exact primaryIndexInv_createMessage m now suffix h
  | getMessagesBySessionId _ => exact h
  | deleteMessage id => exact primaryIndexInv_deleteMessage id h
  | deleteChatSession id => exact primaryIndexInv_deleteChatSession id h

theorem primaryIndexInv_run (ops : List Op) {st : Store} (h : PrimaryIndexInv st) :
    PrimaryIndexInv (run st ops) := by
  induction ops generalizing st with
  | nil => exact h
  | cons op ops ih => exact ih (primaryIndexInv_step op h)

/-- C7: in every store state reachable from the empty store by interface
operations, every stored session's id is contained in its owning user's
`sessionsByUser` entry, and every stored message's id in its owning session's
`messagesBySession` entry. -/
theorem C7_reachable_index_consistent (ops : List Op) :
    (∀ k s, mapLookup k (run emptyStore ops).chatSessions = some s →
      k ∈ sbuList s.userId (run emptyStore ops)) ∧
    (∀ k m, mapLookup k (run emptyStore ops).messages = some m →
      k ∈ mbsList m.sessionId (run emptyStore ops)) := by
  obtain ⟨hs, hm⟩ := primaryIndexInv_run ops primaryIndexInv_empty
  exact ⟨fun k s hk => (hs k s hk).2, fun k m hk => (hm k m hk).2⟩

theorem C7_witness :
    "session_0_a" ∈
      sbuList "u1"
        (run emptyStore [Op.createChatSession ⟨"u1", "t"⟩ 0 "a",
          Op.createMessage ⟨"session_0_a", "user", "hi"⟩ 1 "b"]) :=
  (C7_reachable_index_consistent
      [Op.createChatSession ⟨"u1", "t"⟩ 0 "a",
        Op.createMessage ⟨"session_0_a", "user", "hi"⟩ 1 "b"]).1
    "session_0_a" ⟨"session_0_a", "u1", "t", 0, 1⟩ (by decide)

theorem keysNodup_foldl_erase (ids : List String) {l : List (String × α)}
    (h : KeysNodup l) : KeysNodup (ids.foldl (fun m i => mapErase i m) l) := by
  induction ids generalizing l with
  | nil => exact h
  | cons i ids ih => exact ih (keysNodup_erase i h)

theorem storeKeysNodup_step (op : Op) {st : Store} (h : StoreKeysNodup st) :
    StoreKeysNodup (step st op) := by
  obtain ⟨hc, hm⟩ := h
  cases op with
  | getUser _ => exact ⟨hc, hm⟩
  | upsertUser u now => exact ⟨hc, hm⟩
  | createChatSession s now suffix => exact ⟨keysNodup_set _ _ hc, hm⟩
  | getChatSession _ => exact ⟨hc, hm⟩
  | getAllChatSessions _ => exact ⟨hc, hm⟩
  | createMessage m now suffix =>
      unfold step createMessage
      dsimp only
      cases hcs : mapLookup m.sessionId st.chatSessions with
      | none => exact ⟨hc, keysNodup_set _ _ hm⟩
      | some S => exact ⟨keysNodup_set _ _ hc, keysNodup_set _ _ hm⟩
  | getMessagesBySessionId _ => exact ⟨hc, hm⟩
  | deleteMessage id =>
      unfold step deleteMessage
      dsimp only
      cases hmm : mapLookup id st.messages with
      | none => exact ⟨hc, hm⟩
      | some msg =>
          dsimp only
          by_cases hmem : id ∈ (mapLookup msg.sessionId st.messagesBySession).getD []
          · rw [if_pos hmem]
            exact ⟨hc, keysNodup_erase id hm⟩
          · rw [if_neg hmem]
            exact ⟨hc, keysNodup_erase id hm⟩
  | deleteChatSession id =>
      unfold step deleteChatSession
      dsimp only
      cases hcs : mapLookup id st.chatSessions with
      | none => exact ⟨hc, hm⟩
      | some S =>
          dsimp only
          by_cases hmem : id ∈ (mapLookup S.userId st.sessionsByUser).getD []
          · rw [if_pos hmem]
            exact ⟨keysNodup_erase id hc, keysNodup_foldl_erase _ hm⟩
          · rw [if_neg hmem]
            exact ⟨keysNodup_erase id hc, keysNodup_foldl_erase _ hm⟩

theorem storeKeysNodup_run (ops : List Op) {st : Store} (h : StoreKeysNodup st) :
    StoreKeysNodup (run st ops) := by
  induction ops generalizing st with
  | nil => exact h
  | cons op ops ih => exact ih (storeKeysNodup_step op h)

theorem sessionTraceInv_empty : SessionTraceInv [] emptyStore := by
  refine ⟨fun u => ?_, fun u k s hk hl => ?_, fun u => ?_⟩
  · simp [sbuList, emptyStore, mapLookup]
  · simp [sbuList, emptyStore, mapLookup] at hk
  · simp [sbuList, emptyStore, mapLookup]

theorem sessionTraceInv_mono {used used' : List String} {st : Store}
    (hsub : used.Sublist used') (h : SessionTraceInv used st) :
    SessionTraceInv used' st :=
  ⟨fun u => (h.1 u).trans hsub, h.2.1, h.2.2⟩

theorem sessionTraceInv_createChatSession (s : InsertChatSession) (now : Nat)
    (suffix : String) {used : List String} {st : Store}
    (h : SessionTraceInv used st) (hfresh : genSessionId now suffix ∉ used) :
    SessionTraceInv (used ++ [genSessionId now suffix])
      (createChatSession s now suffix st).2 := by
  obtain ⟨hsub, hown, hnd⟩ := h
  have hlist : ∀ u, sbuList u (createChatSession s now suffix st).2 =
      if u = s.userId then sbuList s.userId st ++ [genSessionId now suffix]
      else sbuList u st := by
    intro u
    dsimp only [createChatSession, sbuList]
    by_cases hu : u = s.userId
    · rw [if_pos hu, hu, mapLookup_set_self, Option.getD_some]
    · rw [if_neg hu, mapLookup_set_ne hu]
  refine ⟨fun u => ?_, fun u k sk hk hl => ?_, fun u => ?_⟩
  · rw [hlist u]
    by_cases hu : u = s.userId
    · rw [if_pos hu]
      exact (hsub s.userId).append (List.Sublist.refl _)
    · rw [if_neg hu]
      exact (hsub u).trans (List.sublist_append_left _ _)
  · rw [hlist u] at hk
    dsimp only [createChatSession] at hl
    by_cases hkid : k = genSessionId now suffix
    · subst hkid
      rw [mapLookup_set_self] at hl
      cases hl
      by_cases hu : u = s.userId
      · exact hu.symm
      · rw [if_neg hu] at hk
        exact absurd (List.Sublist.mem hk (hsub u)) hfresh
    · rw [mapLookup_set_ne hkid] at hl
      by_cases hu : u = s.userId
      · rw [if_pos hu] at hk
        rcases List.mem_append.1 hk with hk | hk
        · exact (hown s.userId k sk hk hl).trans hu.symm
        · exact absurd (List.mem_singleton.1 hk) hkid
      · rw [if_neg hu] at hk
        exact hown u k sk hk hl
  · rw [hlist u]
    by_cases hu : u = s.userId
    · rw [if_pos hu]
      refine List.Nodup.append (hnd s.userId) (List.nodup_singleton _) ?_
      intro x hx
      simp only [List.mem_singleton]
      rintro rfl
      exact hfresh (List.Sublist.mem hx (hsub s.userId))
    · rw [if_neg hu]
      exact hnd u

theorem sessionTraceInv_step_other (op : Op) {used : List String} {st : Store}
    (h : SessionTraceInv used st)
    (hop : ∀ s now suffix, op ≠ Op.createChatSession s now suffix) :
    SessionTraceInv used (step st op) := by
  obtain ⟨hsub, hown, hnd⟩ := h
  cases op with
  | getUser _ => exact ⟨hsub, hown, hnd⟩
  | upsertUser u now => exact ⟨hsub, hown, hnd⟩
  | createChatSession s now suffix => exact absurd rfl (hop s now suffix)
  | getChatSession _ => exact ⟨hsub, hown, hnd⟩
  | getAllChatSessions _ => exact ⟨hsub, hown, hnd⟩
  | createMessage m now suffix =>
      unfold step createMessage
      dsimp only
      cases hcs : mapLookup m.sessionId st.chatSessions with
      | none => exact ⟨hsub, hown, hnd⟩
      | some S =>
          refine ⟨hsub, fun u k sk hk hl => ?_, hnd⟩
          dsimp only at hl
          by_cases hkid : k = m.sessionId
          · subst hkid
            rw [mapLookup_set_self] at hl
            cases hl
            exact hown u m.sessionId S hk hcs
          · rw [mapLookup_set_ne hkid] at hl
            exact hown u k sk hk hl
  | getMessagesBySessionId _ => exact ⟨hsub, hown, hnd⟩
  | deleteMessage id =>
      unfold step deleteMessage
      dsimp only
      cases hmm : mapLookup id st.messages with
      | none => exact ⟨hsub, hown, hnd⟩
      | some msg =>
          dsimp only
          by_cases hmem : id ∈ (mapLookup msg.sessionId st.messagesBySession).getD []
          · rw [if_pos hmem]
            exact ⟨hsub, hown, hnd⟩
          · rw [if_neg hmem]
            exact ⟨hsub, hown, hnd⟩
  | deleteChatSession id =>
      unfold step deleteChatSession
      dsimp only
      cases hcs : mapLookup id st.chatSessions with
      | none => exact ⟨hsub, hown, hnd⟩
      | some S =>
          dsimp only
          have hl' : ∀ u k sk,
              mapLookup k (mapErase id st.chatSessions) = some sk →
              k ∈ sbuList u st → sk.userId = u := by
            intro u k sk hl hk
            have hkid : k ≠ id := by
              rintro rfl
              rw [mapLookup_erase_self] at hl
              cases hl
            rw [mapLookup_erase_ne hkid] at hl
            exact hown u k sk hk hl
          by_cases hmem : id ∈ (mapLookup S.userId st.sessionsByUser).getD []
          · rw [if_pos hmem]
            have hlist : ∀ u, sbuList u
                { users := st.users
                  chatSessions := mapErase id st.chatSessions
                  messages := ((mapLookup id st.messagesBySession).getD []).foldl
                    (fun m msgId => mapErase msgId m) st.messages
                  sessionsByUser := mapSet S.userId
                    (((mapLookup S.userId st.sessionsByUser).getD []).erase id) st.sessionsByUser
                  messagesBySession := mapErase id st.messagesBySession } =
                if u = S.userId then (sbuList S.userId st).erase id else sbuList u st := by
              intro u
              dsimp only [sbuList]
              by_cases hu : u = S.userId
              · rw [if_pos hu, hu, mapLookup_set_self, Option.getD_some]
              · rw [if_neg hu, mapLookup_set_ne hu]
            refine ⟨fun u => ?_, fun u k sk hk hl => ?_, fun u => ?_⟩
            · rw [hlist u]
              by_cases hu : u = S.userId
              · rw [if_pos hu]
                exact (List.erase_sublist _ _).trans (hsub S.userId)
              · rw [if_neg hu]
                exact hsub u
            · rw [hlist u] at hk
              by_cases hu : u = S.userId
              · rw [if_pos hu] at hk
                exact hu ▸ hl' S.userId k sk hl
                  (List.Sublist.mem hk (List.erase_sublist _ _))
              · rw [if_neg hu] at hk
                exact hl' u k sk hl hk
            · rw [hlist u]
              by_cases hu : u = S.userId
              · rw [if_pos hu]
                exact List.Nodup.erase _ (hnd S.userId)
              · rw [if_neg hu]
                exact hnd u
          · rw [if_neg hmem]
            exact ⟨hsub, fun u k sk hk hl => hl' u k sk hl hk, hnd⟩

theorem sessionTraceInv_run (ops : List Op) {used : List String} {st : Store}
    (h : SessionTraceInv used st) (hnd : (used ++ genSessionIds ops).Nodup) :
    SessionTraceInv (used ++ genSessionIds ops) (run st ops) := by
  induction ops generalizing used st with
  | nil =>
      simpa [genSessionIds] using h
  | cons op ops ih =>
      cases op with
      | createChatSession s now suffix =>
          have hg : genSessionIds (Op.createChatSession s now suffix :: ops) =
              genSessionId now suffix :: genSessionIds ops := rfl
          rw [hg] at hnd ⊢
          have hassoc : used ++ genSessionId now suffix :: genSessionIds ops =
              (used ++ [genSessionId now suffix]) ++ genSessionIds ops := by
            simp
          rw [hassoc] at hnd ⊢
          have hfresh : genSessionId now suffix ∉ used := by
            have hnd1 := (List.nodup_append.1 hnd).1
            have hdisj := (List.nodup_append.1 hnd1).2.2
            intro hin
            exact hdisj hin (by simp)
          exact ih (sessionTraceInv_createChatSession s now suffix h hfresh) hnd
      | getUser id =>
          exact ih (sessionTraceInv_step_other (Op.getUser id) h (by intro s n sf; simp)) hnd
      | upsertUser u now =>
          exact ih (sessionTraceInv_step_other (Op.upsertUser u now) h (by intro s n sf; simp)) hnd
      | getChatSession id =>
          exact ih (sessionTraceInv_step_other (Op.getChatSession id) h (by intro s n sf; simp)) hnd
      | getAllChatSessions u =>
          exact ih (sessionTraceInv_step_other (Op.getAllChatSessions u) h (by intro s n sf; simp)) hnd
      | createMessage m now suffix =>
          exact ih (sessionTraceInv_step_other (Op.createMessage m now suffix) h (by intro s n sf; simp)) hnd
      | getMessagesBySessionId sid =>
          exact ih (sessionTraceInv_step_other (Op.getMessagesBySessionId sid) h (by intro s n sf; simp)) hnd
      | deleteMessage id =>
          exact ih (sessionTraceInv_step_other (Op.deleteMessage id) h (by intro s n sf; simp)) hnd
      | deleteChatSession id =>
          exact ih (sessionTraceInv_step_other (Op.deleteChatSession id) h (by intro s n sf; simp)) hnd

theorem getAllChatSessions_eq_sort (u : String) (st : Store) :
    getAllChatSessions u st =
      List.insertionSort (fun a b => b.updatedAt ≤ a.updatedAt)
        (resolvedSessions u st) := rfl

theorem resolvedSessions_mem {used : List String} {st : Store}
    (hinv : PrimaryIndexInv st) (htr : SessionTraceInv used st)
    (u : String) (s : ChatSession) :
    s ∈ resolvedSessions u st ↔
      mapLookup s.id st.chatSessions = some s ∧ s.userId = u := by
  constructor
  · intro hmem
    rcases List.mem_filterMap.1 hmem with ⟨k, hk, hl⟩
    have hid := (hinv.1 k s hl).1
    exact ⟨hid ▸ hl, htr.2.1 u k s hk hl⟩
  · rintro ⟨hl, hu⟩
    have hmem := (hinv.1 s.id s hl).2
    exact List.mem_filterMap.2 ⟨s.id, hu ▸ hmem, hl⟩

theorem ownedSessions_mem {st : Store} (hk : KeysNodup st.chatSessions)
    (hinv : PrimaryIndexInv st) (u : String) (s : ChatSession) :
    s ∈ ownedSessions u st ↔
      mapLookup s.id st.chatSessions = some s ∧ s.userId = u := by
  unfold ownedSessions
  constructor
  · intro hmem
    rcases List.mem_map.1 hmem with ⟨⟨k, s'⟩, hp, hs'⟩
    cases hs'
    have hpair := (List.mem_filter.1 hp).1
    have hu : s'.userId = u := by simpa using (List.mem_filter.1 hp).2
    have hl := mapLookup_of_mem hk hpair
    have hid := (hinv.1 k s' hl).1
    exact ⟨hid ▸ hl, hu⟩
  · rintro ⟨hl, hu⟩
    exact List.mem_map.2 ⟨(s.id, s),
      List.mem_filter.2 ⟨mem_of_mapLookup hl, by simpa using hu⟩, rfl⟩

theorem resolvedSessions_nodup {used : List String} {st : Store}
    (hinv : PrimaryIndexInv st) (htr : SessionTraceInv used st) (u : String) :
    (resolvedSessions u st).Nodup := by
  apply List.Nodup.filterMap ?_ (htr.2.2 u)
  intro a b s hsa hsb
  have hla : mapLookup a st.chatSessions = some s := Option.mem_def.1 hsa
  have hlb : mapLookup b st.chatSessions = some s := Option.mem_def.1 hsb
  have hida := (hinv.1 a s hla).1
  have hidb := (hinv.1 b s hlb).1
  rw [← hida, ← hidb]

theorem ownedSessions_nodup {st : Store} (hk : KeysNodup st.chatSessions)
    (hinv : PrimaryIndexInv st) (u : String) :
    (ownedSessions u st).Nodup := by
  unfold ownedSessions
  have hpairs : st.chatSessions.Nodup := List.Nodup.of_map _ hk
  apply List.Nodup.map_on ?_ (hpairs.filter _)
  intro x hx y hy hxy
  have hx' := (List.mem_filter.1 hx).1
  have hy' := (List.mem_filter.1 hy).1
  have hlx : mapLookup x.1 st.chatSessions = some x.2 := mapLookup_of_mem hk hx'
  have hly : mapLookup y.1 st.chatSessions = some y.2 := mapLookup_of_mem hk hy'
  have hidx := (hinv.1 x.1 x.2 hlx).1
  have hidy := (hinv.1 y.1 y.2 hly).1
  have h1 : x.1 = y.1 := by rw [← hidx, ← hidy, hxy]
  exact Prod.ext h1 hxy

theorem insertionSort_filter_stable {α : Type} (r : α → α → Prop) [DecidableRel r]
    (p : α → Bool) (hp : ∀ a b, p a = true → p b = true → r a b) (l : List α) :
    (List.insertionSort r l).filter p = l.filter p := by
  have hpair : (l.filter p).Pairwise r := by
    apply List.pairwise_of_forall_mem_list
    intro a ha b hb
    exact hp a b (List.mem_filter.1 ha).2 (List.mem_filter.1 hb).2
  have hsub1 : (l.filter p).Sublist (List.insertionSort r l) :=
    List.sublist_insertionSort hpair (List.filter_sublist l)
  have hfix : (l.filter p).filter p = l.filter p := by
    rw [List.filter_filter]
    simp
  have hsub2 : (l.filter p).Sublist ((List.insertionSort r l).filter p) := by
    rw [← hfix]
    exact hsub1.filter p
  have hperm : ((List.insertionSort r l).filter p).Perm (l.filter p) :=
    (List.perm_insertionSort r l).filter p
  exact (List.Sublist.eq_of_length hsub2 hperm.length_eq.symm).symm

/-- C4 fails as stated: if two session creations draw the same time and the
same random suffix, the second silently reuses the first identifier, and the
first user's index entry then resolves to a session owned by another user, so
`getAllChatSessions` returns a session the queried user does not own. -/
theorem C4_counterexample :
    getAllChatSessions "u1"
        (run emptyStore [Op.createChatSession ⟨"u1", "t1"⟩ 0 "a",
          Op.createChatSession ⟨"u2", "t2"⟩ 0 "a"]) =
      [⟨"session_0_a", "u2", "t2", 0, 0⟩] := by
  decide

/-- C4 (amended): in any state reached by a trace whose generated session
identifiers are pairwise distinct (the spec's uniqueness assumption, which the
generator itself does not enforce), `getAllChatSessions(userId)` returns
exactly the sessions owned by `userId` (a permutation of them; empty when the
user owns none), sorted by `updatedAt` descending, with ties kept in the
insertion (= generation) order of the index list. -/
theorem C4_getAllChatSessions (ops : List Op) (u : String)
    (h : (genSessionIds ops).Nodup) :
    (∀ s ∈ getAllChatSessions u (run emptyStore ops), s.userId = u) ∧
    (getAllChatSessions u (run emptyStore ops)).Perm
      (ownedSessions u (run emptyStore ops)) ∧
    (getAllChatSessions u (run emptyStore ops)).Pairwise
      (fun a b => b.updatedAt ≤ a.updatedAt) ∧
    (∀ t, (getAllChatSessions u (run emptyStore ops)).filter
        (fun s => s.updatedAt == t) =
      (resolvedSessions u (run emptyStore ops)).filter (fun s => s.updatedAt == t)) ∧
    (sbuList u (run emptyStore ops)).Sublist (genSessionIds ops) ∧
    (ownedSessions u (run emptyStore ops) = [] →
      getAllChatSessions u (run emptyStore ops) = []) := by
  have hinv := primaryIndexInv_run ops primaryIndexInv_empty
  have hkeys : KeysNodup (run emptyStore ops).chatSessions :=
    (storeKeysNodup_run ops ⟨keysNodup_nil, keysNodup_nil⟩).1
  have htr : SessionTraceInv (genSessionIds ops) (run emptyStore ops) := by
    have h0 := @sessionTraceInv_run ops [] emptyStore sessionTraceInv_empty
      (by simpa using h)
    simpa using h0
  haveI : IsTotal ChatSession (fun a b => b.updatedAt ≤ a.updatedAt) :=
    ⟨fun a b => le_total b.updatedAt a.updatedAt⟩
  haveI : IsTrans ChatSession (fun a b => b.updatedAt ≤ a.updatedAt) :=
    ⟨fun a b c hab hbc => le_trans hbc hab⟩
  have hperm : (getAllChatSessions u (run emptyStore ops)).Perm
      (ownedSessions u (run emptyStore ops)) := by
    rw [getAllChatSessions_eq_sort]
    have hnd1 : (List.insertionSort (fun a b => b.updatedAt ≤ a.updatedAt)
        (resolvedSessions u (run emptyStore ops))).Nodup :=
      (List.perm_insertionSort _ _).nodup_iff.2 (resolvedSessions_nodup hinv htr u)
    have hnd2 := ownedSessions_nodup hkeys hinv u
    rw [List.perm_ext_iff_of_nodup hnd1 hnd2]
    intro s
    rw [List.mem_insertionSort, resolvedSessions_mem hinv htr u s,
      ownedSessions_mem hkeys hinv u s]
  refine ⟨?_, hperm, ?_, ?_, htr.1 u, ?_⟩
  · intro s hs
    rw [getAllChatSessions_eq_sort, List.mem_insertionSort] at hs
    exact ((resolvedSessions_mem hinv htr u s).1 hs).2
  · rw [getAllChatSessions_eq_sort]
    exact List.sorted_insertionSort _ _
  · intro t
    rw [getAllChatSessions_eq_sort]
    apply insertionSort_filter_stable
    intro a b ha hb
    have ha' : a.updatedAt = t := by simpa using ha
    have hb' : b.updatedAt = t := by simpa using hb
    rw [ha', hb']
  · intro h0
    rw [h0] at hperm
    exact hperm.eq_nil

theorem C4_witness :
    (genSessionIds [Op.createChatSession ⟨"u1", "t1"⟩ 5 "a",
      Op.createChatSession ⟨"u1", "t2"⟩ 3 "b"]).Nodup ∧
    (∀ s ∈ getAllChatSessions "u1"
        (run emptyStore [Op.createChatSession ⟨"u1", "t1"⟩ 5 "a",
          Op.createChatSession ⟨"u1", "t2"⟩ 3 "b"]), s.userId = "u1") :=
  ⟨by decide,
   (C4_getAllChatSessions [Op.createChatSession ⟨"u1", "t1"⟩ 5 "a",
      Op.createChatSession ⟨"u1", "t2"⟩ 3 "b"] "u1" (by decide)).1⟩

theorem messageTraceInv_empty : MessageTraceInv [] emptyStore := by
  refine ⟨fun sid => ?_, fun sid k m hk hl => ?_, fun sid => ?_⟩
  · simp [mbsList, emptyStore, mapLookup]
  · simp [mbsList, emptyStore, mapLookup] at hk
  · simp [mbsList, emptyStore, mapLookup]

theorem messageTraceInv_createMessage (m : InsertMessage) (now : Nat)
    (suffix : String) {used : List String} {st : Store}
    (h : MessageTraceInv used st) (hfresh : genMessageId now suffix ∉ used) :
    MessageTraceInv (used ++ [genMessageId now suffix])
      (createMessage m now suffix st).2 := by
  obtain ⟨hsub, hown, hnd⟩ := h
  have hlist : ∀ sid, mbsList sid (createMessage m now suffix st).2 =
      if sid = m.sessionId then mbsList m.sessionId st ++ [genMessageId now suffix]
      else mbsList sid st := by
    intro sid
    unfold createMessage
    cases hcs : mapLookup m.sessionId st.chatSessions with
    | none =>
        dsimp only [mbsList]
        by_cases hsid : sid = m.sessionId
        · rw [if_pos hsid, hsid, mapLookup_set_self, Option.getD_some]
        · rw [if_neg hsid, mapLookup_set_ne hsid]
    | some S =>
        dsimp only [mbsList]
        by_cases hsid : sid = m.sessionId
        · rw [if_pos hsid, hsid, mapLookup_set_self, Option.getD_some]
        · rw [if_neg hsid, mapLookup_set_ne hsid]
  have hlook : ∀ k, mapLookup k (createMessage m now suffix st).2.messages =
      if k = genMessageId now suffix then
        some { id := genMessageId now suffix, sessionId := m.sessionId
               role := m.role, content := m.content, timestamp := now }
      else mapLookup k st.messages := by
    intro k
    unfold createMessage
    cases hcs : mapLookup m.sessionId st.chatSessions with
    | none =>
        dsimp only
        by_cases hk : k = genMessageId now suffix
        · rw [if_pos hk, hk, mapLookup_set_self]
        · rw [if_neg hk, mapLookup_set_ne hk]
    | some S =>
        dsimp only
        by_cases hk : k = genMessageId now suffix
        · rw [if_pos hk, hk, mapLookup_set_self]
        · rw [if_neg hk, mapLookup_set_ne hk]
  refine ⟨fun sid => ?_, fun sid k mk hk hl => ?_, fun sid => ?_⟩
  · rw [hlist sid]
    by_cases hsid : sid = m.sessionId
    · rw [if_pos hsid]
      exact (hsub m.sessionId).append (List.Sublist.refl _)
    · rw [if_neg hsid]
      exact (hsub sid).trans (List.sublist_append_left _ _)
  · rw [hlist sid] at hk
    rw [hlook k] at hl
    by_cases hkid : k = genMessageId now suffix
    · subst hkid
      rw [if_pos rfl] at hl
      cases hl
      by_cases hsid : sid = m.sessionId
      · exact hsid.symm
      · rw [if_neg hsid] at hk
        exact absurd (List.Sublist.mem hk (hsub sid)) hfresh
    · rw [if_neg hkid] at hl
      by_cases hsid : sid = m.sessionId
      · rw [if_pos hsid] at hk
        rcases List.mem_append.1 hk with hk | hk
        · exact (hown m.sessionId k mk hk hl).trans hsid.symm
        · exact absurd (List.mem_singleton.1 hk) hkid
      · rw [if_neg hsid] at hk
        exact hown sid k mk hk hl
  · rw [hlist sid]
    by_cases hsid : sid = m.sessionId
    · rw [if_pos hsid]
      refine List.Nodup.append (hnd m.sessionId) (List.nodup_singleton _) ?_
      intro x hx
      simp only [List.mem_singleton]
      rintro rfl
      exact hfresh (List.Sublist.mem hx (hsub m.sessionId))
    · rw [if_neg hsid]
      exact hnd sid

theorem messageTraceInv_step_other (op : Op) {used : List String} {st : Store}
    (h : MessageTraceInv used st)
    (hop : ∀ m now suffix, op ≠ Op.createMessage m now suffix) :
    MessageTraceInv used (step st op) := by
  obtain ⟨hsub, hown, hnd⟩ := h
  cases op with
  | getUser _ => exact ⟨hsub, hown, hnd⟩
  | upsertUser u now => exact ⟨hsub, hown, hnd⟩
  | createChatSession s now suffix => exact ⟨hsub, hown, hnd⟩
  | getChatSession _ => exact ⟨hsub, hown, hnd⟩
  | getAllChatSessions _ => exact ⟨hsub, hown, hnd⟩
  | createMessage m now suffix => exact absurd rfl (hop m now suffix)
  | getMessagesBySessionId _ => exact ⟨hsub, hown, hnd⟩
  | deleteMessage id =>
      unfold step deleteMessage
      dsimp only
      cases hmm : mapLookup id st.messages with
      | none => exact ⟨hsub, hown, hnd⟩
      | some msg =>
          dsimp only
          by_cases hmem : id ∈ (mapLookup msg.sessionId st.messagesBySession).getD []
          · rw [if_pos hmem]
            have hlist : ∀ sid, mbsList sid
                { users := st.users, chatSessions := st.chatSessions
                  messages := mapErase id st.messages
                  sessionsByUser := st.sessionsByUser
                  messagesBySession := mapSet msg.sessionId
                    (((mapLookup msg.sessionId st.messagesBySession).getD []).erase id)
                    st.messagesBySession } =
                if sid = msg.sessionId then (mbsList msg.sessionId st).erase id
                else mbsList sid st := by
              intro sid
              dsimp only [mbsList]
              by_cases hsid : sid = msg.sessionId
              · rw [if_pos hsid, hsid, mapLookup_set_self, Option.getD_some]
              · rw [if_neg hsid, mapLookup_set_ne hsid]
            refine ⟨fun sid => ?_, fun sid k mk hk hl => ?_, fun sid => ?_⟩
            · rw [hlist sid]
              by_cases hsid : sid = msg.sessionId
              · rw [if_pos hsid]
                exact (List.erase_sublist _ _).trans (hsub msg.sessionId)
              · rw [if_neg hsid]
                exact hsub sid
            · rw [hlist sid] at hk
              have hkid : k ≠ id := by
                rintro rfl
                rw [mapLookup_erase_self] at hl
                cases hl
              rw [mapLookup_erase_ne hkid] at hl
              by_cases hsid : sid = msg.sessionId
              · rw [if_pos hsid] at hk
                exact (hown msg.sessionId k mk
                  (List.Sublist.mem hk (List.erase_sublist _ _)) hl).trans hsid.symm
              · rw [if_neg hsid] at hk
                exact hown sid k mk hk hl
            · rw [hlist sid]
              by_cases hsid : sid = msg.sessionId
              · rw [if_pos hsid]
                exact List.Nodup.erase _ (hnd msg.sessionId)
              · rw [if_neg hsid]
                exact hnd sid
          · rw [if_neg hmem]
            refine ⟨hsub, fun sid k mk hk hl => ?_, hnd⟩
            have hkid : k ≠ id := by
              rintro rfl
              rw [mapLookup_erase_self] at hl
              cases hl
            rw [mapLookup_erase_ne hkid] at hl
            exact hown sid k mk hk hl
  | deleteChatSession id =>
      unfold step deleteChatSession
      dsimp only
      cases hcs : mapLookup id st.chatSessions with
      | none => exact ⟨hsub, hown, hnd⟩
      | some S =>
          dsimp only
          have hcore : ∀ (sbu' : List (String × List String)),
              MessageTraceInv used
                { users := st.users
                  chatSessions := mapErase id st.chatSessions
                  messages := ((mapLookup id st.messagesBySession).getD []).foldl
                    (fun mm msgId => mapErase msgId mm) st.messages
                  sessionsByUser := sbu'
                  messagesBySession := mapErase id st.messagesBySession } := by
            intro sbu'
            have hlist : ∀ sid, mbsList sid
                { users := st.users
                  chatSessions := mapErase id st.chatSessions
                  messages := ((mapLookup id st.messagesBySession).getD []).foldl
                    (fun mm msgId => mapErase msgId mm) st.messages
                  sessionsByUser := sbu'
                  messagesBySession := mapErase id st.messagesBySession } =
                if sid = id then [] else mbsList sid st := by
              intro sid
              dsimp only [mbsList]
              by_cases hsid : sid = id
              · rw [if_pos hsid, hsid, mapLookup_erase_self]
                rfl
              · rw [if_neg hsid, mapLookup_erase_ne hsid]
            refine ⟨fun sid => ?_, fun sid k mk hk hl => ?_, fun sid => ?_⟩
            · rw [hlist sid]
              by_cases hsid : sid = id
              · rw [if_pos hsid]
                exact List.nil_sublist _
              · rw [if_neg hsid]
                exact hsub sid
            · rw [hlist sid] at hk
              by_cases hsid : sid = id
              · rw [if_pos hsid] at hk
                cases hk
              · rw [if_neg hsid] at hk
                dsimp only at hl
                rw [mapLookup_foldl_erase] at hl
                by_cases hkin : k ∈ (mapLookup id st.messagesBySession).getD []
                · rw [if_pos hkin] at hl
                  cases hl
                · rw [if_neg hkin] at hl
                  exact hown sid k mk hk hl
            · rw [hlist sid]
              by_cases hsid : sid = id
              · rw [if_pos hsid]
                exact List.nodup_nil
              · rw [if_neg hsid]
                exact hnd sid
          by_cases hmem : id ∈ (mapLookup S.userId st.sessionsByUser).getD []
          · rw [if_pos hmem]
            exact hcore _
          · rw [if_neg hmem]
            exact hcore _

theorem messageTraceInv_run (ops : List Op) {used : List String} {st : Store}
    (h : MessageTraceInv used st) (hnd : (used ++ genMessageIds ops).Nodup) :
    MessageTraceInv (used ++ genMessageIds ops) (run st ops) := by
  induction ops generalizing used st with
  | nil =>
      simpa [genMessageIds] using h
  | cons op ops ih =>
      cases op with
      | createMessage m now suffix =>
          have hg : genMessageIds (Op.createMessage m now suffix :: ops) =
              genMessageId now suffix :: genMessageIds ops := rfl
          rw [hg] at hnd ⊢
          have hassoc : used ++ genMessageId now suffix :: genMessageIds ops =
              (used ++ [genMessageId now suffix]) ++ genMessageIds ops := by
            simp
          rw [hassoc] at hnd ⊢
          have hfresh : genMessageId now suffix ∉ used := by
            have hnd1 := (List.nodup_append.1 hnd).1
            have hdisj := (List.nodup_append.1 hnd1).2.2
            intro hin
            exact hdisj hin (by simp)
          exact ih (messageTraceInv_createMessage m now suffix h hfresh) hnd
      | getUser id =>
          exact ih (messageTraceInv_step_other (Op.getUser id) h (by intro m n sf; simp)) hnd
      | upsertUser u now =>
          exact ih (messageTraceInv_step_other (Op.upsertUser u now) h (by intro m n sf; simp)) hnd
      | createChatSession s now suffix =>
          exact ih (messageTraceInv_step_other (Op.createChatSession s now suffix) h
            (by intro m n sf; simp)) hnd
      | getChatSession id =>
          exact ih (messageTraceInv_step_other (Op.getChatSession id) h (by intro m n sf; simp)) hnd
      | getAllChatSessions u =>
          exact ih (messageTraceInv_step_other (Op.getAllChatSessions u) h (by intro m n sf; simp)) hnd
      | getMessagesBySessionId sid =>
          exact ih (messageTraceInv_step_other (Op.getMessagesBySessionId sid) h
            (by intro m n sf; simp)) hnd
      | deleteMessage id =>
          exact ih (messageTraceInv_step_other (Op.deleteMessage id) h (by intro m n sf; simp)) hnd
      | deleteChatSession id =>
          exact ih (messageTraceInv_step_other (Op.deleteChatSession id) h (by intro m n sf; simp)) hnd

theorem getMessagesBySessionId_eq_sort (sid : String) (st : Store) :
    getMessagesBySessionId sid st =
      List.insertionSort (fun a b => a.timestamp ≤ b.timestamp)
        (resolvedMessages sid st) := rfl

theorem resolvedMessages_mem {used : List String} {st : Store}
    (hinv : PrimaryIndexInv st) (htr : MessageTraceInv used st)
    (sid : String) (m : Message) :
    m ∈ resolvedMessages sid st ↔
      mapLookup m.id st.messages = some m ∧ m.sessionId = sid := by
  constructor
  · intro hmem
    rcases List.mem_filterMap.1 hmem with ⟨k, hk, hl⟩
    have hid := (hinv.2 k m hl).1
    exact ⟨hid ▸ hl, htr.2.1 sid k m hk hl⟩
  · rintro ⟨hl, hs⟩
    have hmem := (hinv.2 m.id m hl).2
    exact List.mem_filterMap.2 ⟨m.id, hs ▸ hmem, hl⟩

theorem ownedMessages_mem {st : Store} (hk : KeysNodup st.messages)
    (hinv : PrimaryIndexInv st) (sid : String) (m : Message) :
    m ∈ ownedMessages sid st ↔
      mapLookup m.id st.messages = some m ∧ m.sessionId = sid := by
  unfold ownedMessages
  constructor
  · intro hmem
    rcases List.mem_map.1 hmem with ⟨⟨k, m'⟩, hp, hm'⟩
    cases hm'
    have hpair := (List.mem_filter.1 hp).1
    have hs : m'.sessionId = sid := by simpa using (List.mem_filter.1 hp).2
    have hl := mapLookup_of_mem hk hpair
    have hid := (hinv.2 k m' hl).1
    exact ⟨hid ▸ hl, hs⟩
  · rintro ⟨hl, hs⟩
    exact List.mem_map.2 ⟨(m.id, m),
      List.mem_filter.2 ⟨mem_of_mapLookup hl, by simpa using hs⟩, rfl⟩

theorem resolvedMessages_nodup {used : List String} {st : Store}
    (hinv : PrimaryIndexInv st) (htr : MessageTraceInv used st) (sid : String) :
    (resolvedMessages sid st).Nodup := by
  apply List.Nodup.filterMap ?_ (htr.2.2 sid)
  intro a b m hma hmb
  have hla : mapLookup a st.messages = some m := Option.mem_def.1 hma
  have hlb : mapLookup b st.messages = some m := Option.mem_def.1 hmb
  have hida := (hinv.2 a m hla).1
  have hidb := (hinv.2 b m hlb).1
  rw [← hida, ← hidb]

theorem ownedMessages_nodup {st : Store} (hk : KeysNodup st.messages)
    (hinv : PrimaryIndexInv st) (sid : String) :
    (ownedMessages sid st).Nodup := by
  unfold ownedMessages
  have hpairs : st.messages.Nodup := List.Nodup.of_map _ hk
  apply List.Nodup.map_on ?_ (hpairs.filter _)
  intro x hx y hy hxy
  have hx' := (List.mem_filter.1 hx).1
  have hy' := (List.mem_filter.1 hy).1
  have hlx : mapLookup x.1 st.messages = some x.2 := mapLookup_of_mem hk hx'
  have hly : mapLookup y.1 st.messages = some y.2 := mapLookup_of_mem hk hy'
  have hidx := (hinv.2 x.1 x.2 hlx).1
  have hidy := (hinv.2 y.1 y.2 hly).1
  have h1 : x.1 = y.1 := by rw [← hidx, ← hidy, hxy]
  exact Prod.ext h1 hxy

/-- C5 fails as stated: if two message creations draw the same time and the
same random suffix, the second silently reuses the first identifier, and the
first session's index entry then resolves to a message owned by another
session, so `getMessagesBySessionId` returns a message the queried session
does not own. -/
theorem C5_counterexample :
    getMessagesBySessionId "s1"
        (run emptyStore [Op.createMessage ⟨"s1", "user", "a"⟩ 0 "x",
          Op.createMessage ⟨"s2", "user", "b"⟩ 0 "x"]) =
      [⟨"msg_0_x", "s2", "user", "b", 0⟩] := by
  decide

/-- C5 (amended): in any state reached by a trace whose generated message
identifiers are pairwise distinct (the spec's uniqueness assumption, which the
generator itself does not enforce), `getMessagesBySessionId(sessionId)`
returns exactly the messages owned by `sessionId` (a permutation of them;
empty when the session owns none), sorted by `timestamp` ascending with ties
kept in insertion (= generation) order; in particular creating `m1` then `m2`
in a session yields `[m1, m2]`. -/
theorem C5_getMessagesBySessionId (ops : List Op) (sid : String)
    (h : (genMessageIds ops).Nodup) :
    (∀ m ∈ getMessagesBySessionId sid (run emptyStore ops), m.sessionId = sid) ∧
    (getMessagesBySessionId sid (run emptyStore ops)).Perm
      (ownedMessages sid (run emptyStore ops)) ∧
    (getMessagesBySessionId sid (run emptyStore ops)).Pairwise
      (fun a b => a.timestamp ≤ b.timestamp) ∧
    (∀ t, (getMessagesBySessionId sid (run emptyStore ops)).filter
        (fun m => m.timestamp == t) =
      (resolvedMessages sid (run emptyStore ops)).filter (fun m => m.timestamp == t)) ∧
    (mbsList sid (run emptyStore ops)).Sublist (genMessageIds ops) ∧
    (ownedMessages sid (run emptyStore ops) = [] →
      getMessagesBySessionId sid (run emptyStore ops) = []) ∧
    getMessagesBySessionId "session_0_s"
        (run emptyStore [Op.createChatSession ⟨"u1", "t"⟩ 0 "s",
          Op.createMessage ⟨"session_0_s", "user", "a"⟩ 1 "x",
          Op.createMessage ⟨"session_0_s", "user", "b"⟩ 2 "y"]) =
      [⟨"msg_1_x", "session_0_s", "user", "a", 1⟩,
       ⟨"msg_2_y", "session_0_s", "user", "b", 2⟩] := by
  have hinv := primaryIndexInv_run ops primaryIndexInv_empty
  have hkeys : KeysNodup (run emptyStore ops).messages :=
    (storeKeysNodup_run ops ⟨keysNodup_nil, keysNodup_nil⟩).2
  have htr : MessageTraceInv (genMessageIds ops) (run emptyStore ops) := by
    have h0 := @messageTraceInv_run ops [] emptyStore messageTraceInv_empty
      (by simpa using h)
    simpa using h0
  haveI : IsTotal Message (fun a b => a.timestamp ≤ b.timestamp) :=
    ⟨fun a b => le_total a.timestamp b.timestamp⟩
  haveI : IsTrans Message (fun a b => a.timestamp ≤ b.timestamp) :=
    ⟨fun a b c hab hbc => le_trans hab hbc⟩
  have hperm : (getMessagesBySessionId sid (run emptyStore ops)).Perm
      (ownedMessages sid (run emptyStore ops)) := by
    rw [getMessagesBySessionId_eq_sort]
    have hnd1 : (List.insertionSort (fun a b => a.timestamp ≤ b.timestamp)
        (resolvedMessages sid (run emptyStore ops))).Nodup :=
      (List.perm_insertionSort _ _).nodup_iff.2 (resolvedMessages_nodup hinv htr sid)
    have hnd2 := ownedMessages_nodup hkeys hinv sid
    rw [List.perm_ext_iff_of_nodup hnd1 hnd2]
    intro m
    rw [List.mem_insertionSort, resolvedMessages_mem hinv htr sid m,
      ownedMessages_mem hkeys hinv sid m]
  refine ⟨?_, hperm, ?_, ?_, htr.1 sid, ?_, by decide⟩
  · intro m hm
    rw [getMessagesBySessionId_eq_sort, List.mem_insertionSort] at hm
    exact ((resolvedMessages_mem hinv htr sid m).1 hm).2
  · rw [getMessagesBySessionId_eq_sort]
    exact List.sorted_insertionSort _ _
  · intro t
    rw [getMessagesBySessionId_eq_sort]
    apply insertionSort_filter_stable
    intro a b ha hb
    have ha' : a.timestamp = t := by simpa using ha
    have hb' : b.timestamp = t := by simpa using hb
    rw [ha', hb']
  · intro h0
    rw [h0] at hperm
    exact hperm.eq_nil

theorem C5_witness :
    (genMessageIds [Op.createChatSession ⟨"u1", "t"⟩ 0 "s",
      Op.createMessage ⟨"session_0_s", "user", "a"⟩ 1 "x",
      Op.createMessage ⟨"session_0_s", "user", "b"⟩ 2 "y"]).Nodup ∧
    (∀ m ∈ getMessagesBySessionId "session_0_s"
        (run emptyStore [Op.createChatSession ⟨"u1", "t"⟩ 0 "s",
          Op.createMessage ⟨"session_0_s", "user", "a"⟩ 1 "x",
          Op.createMessage ⟨"session_0_s", "user", "b"⟩ 2 "y"]),
      m.sessionId = "session_0_s") :=
  ⟨by decide,
   (C5_getMessagesBySessionId [Op.createChatSession ⟨"u1", "t"⟩ 0 "s",
      Op.createMessage ⟨"session_0_s", "user", "a"⟩ 1 "x",
      Op.createMessage ⟨"session_0_s", "user", "b"⟩ 2 "y"] "session_0_s" (by decide)).1⟩

end AniverseStorage
